import Mathlib

/-!
Verification of the FavourPro affinity-state plugin (src/main.py).

The development shallowly embeds the two core components:
  * `FavourProManager` (the state store): `get_user_state`, `update_user_state`,
    key construction, favour coercion via Python `int()`.
  * the marker reconciler `FavourProPlugin.on_llm_resp`: the locate pass,
    the three field-level regular expressions, block stripping via
    `str.replace`, and the parse/merge/persist pipeline.
  * the admin ranking commands' sorting step (stable sort by favour).

Strings are modelled as `List Char`; every definition is executable so that
claims can be checked on concrete inputs by evaluation.
-/

namespace FavourPro

/-- Python whitespace for `\s` / `str.strip()` (ASCII fragment; the texts
handled here contain no exotic Unicode whitespace). -/
def pyIsSpace (c : Char) : Bool :=
  c = ' ' || c = '\t' || c = '\n' || c = '\r' || c = '\x0b' || c = '\x0c'

/-- Python `str.strip()`: remove leading and trailing whitespace. -/
def pyStripWs (s : List Char) : List Char :=
  ((s.dropWhile pyIsSpace).reverse.dropWhile pyIsSpace).reverse

/-- Python `str.strip(' ,')` as used on attitude/relationship captures
(src/main.py lines 203, 205): remove leading and trailing characters
belonging to the cut set. -/
def pyStripCut (cut : List Char) (s : List Char) : List Char :=
  ((s.dropWhile (fun c => cut.contains c)).reverse.dropWhile
    (fun c => cut.contains c)).reverse

/-- Numeric value of an ASCII digit. -/
def digitVal (c : Char) : Nat := c.toNat - 48

/-- Digit-run parser for Python `int(str)`: digits with single underscores
allowed between digits (Python 3 numeric literal rule), no leading or
trailing underscore. -/
def digitsGo (acc : Nat) : List Char → Option Nat
  | [] => some acc
  | c :: rest =>
    if c.isDigit then digitsGo (acc * 10 + digitVal c) rest
    else if c = '_' then
      match rest with
      | d :: rest2 =>
        if d.isDigit then digitsGo (acc * 10 + digitVal d) rest2 else none
      | [] => none
    else none

/-- Nonempty digit run (first character must be a digit). -/
def parseDigits : List Char → Option Nat
  | [] => none
  | c :: rest => if c.isDigit then digitsGo (digitVal c) rest else none

/-- Python `int(s)` on a string: strip whitespace, optional sign, digit run.
Returns `none` where Python raises `ValueError`. -/
def pyStrToInt (s : List Char) : Option Int :=
  match pyStripWs s with
  | [] => none
  | c :: rest =>
    if c = '-' then (parseDigits rest).map (fun n => -(n : Int))
    else if c = '+' then (parseDigits rest).map (fun n => (n : Int))
    else (parseDigits (c :: rest)).map (fun n => (n : Int))

/-! ### The three field-level patterns (src/main.py lines 95-101)

`favour_pattern      = re.compile(r"Favour:\s*(-?\d+)")`
`attitude_pattern    = re.compile(r"Attitude:\s*(.+?)(?=\s*[,，]\s*Relationship:|\])")`
`relationship_pattern = re.compile(r"Relationship:\s*(.+?)(?=\s*\])")`

Each is embedded as a hand-compiled matcher: `search` scans start positions
left to right; at a start position the literal label must match, `\s*` is
greedy with backtracking, `(.+?)` is lazy (shortest first, `.` excludes
newline), and the lookahead is evaluated at the stop position.  Since the
label letters, `-` and digits are not whitespace, greedy `\s*` followed by
such a character is equivalent to consuming the whole whitespace run. -/

def favourLabel : List Char := ("Favour:").data
def attitudeLabel : List Char := ("Attitude:").data
def relationshipLabel : List Char := ("Relationship:").data

/-- Strip a literal token from the front of a list, or fail. -/
def dropLit : List Char → List Char → Option (List Char)
  | [], cs => some cs
  | _ :: _, [] => none
  | p :: ps, c :: cs => if c = p then dropLit ps cs else none

/-- Capture of `-?\d+` at the current position (after the whitespace run of
`Favour:\s*`): optional minus sign, then a maximal nonempty digit run. -/
def favourCaptureHere : List Char → Option (List Char)
  | [] => none
  | c :: rest =>
    if c = '-' then
      match rest with
      | d :: ds =>
        if d.isDigit then some ('-' :: d :: ds.takeWhile Char.isDigit) else none
      | [] => none
    else if c.isDigit then some (c :: rest.takeWhile Char.isDigit)
    else none

/-- Attempt `Favour:\s*(-?\d+)` anchored at the current position. -/
def favourAt (cs : List Char) : Option (List Char) :=
  match dropLit favourLabel cs with
  | none => none
  | some rest => favourCaptureHere (rest.dropWhile pyIsSpace)

/-- `favour_pattern.search`: first start position where the pattern matches;
returns the capture group. -/
def favourSearch : List Char → Option (List Char)
  | [] => none
  | c :: rest =>
    match favourAt (c :: rest) with
    | some g => some g
    | none => favourSearch rest

/-- Lookahead `(?=\s*[,，]\s*Relationship:|\])` of the attitude pattern. -/
def attLookahead (cs : List Char) : Bool :=
  (match cs.dropWhile pyIsSpace with
   | c :: rest =>
     (c = ',' || c = '，') &&
       (dropLit relationshipLabel (rest.dropWhile pyIsSpace)).isSome
   | [] => false) ||
  (match cs with
   | c :: _ => c = ']'
   | [] => false)

/-- Lookahead `(?=\s*\])` of the relationship pattern: since `]` is not
whitespace, only the full whitespace run can precede it. -/
def relLookahead (cs : List Char) : Bool :=
  match cs.dropWhile pyIsSpace with
  | c :: _ => c = ']'
  | [] => false

/-- Lazy `(.+?)(?=look)` at the current position: the shortest nonempty
prefix of non-newline characters after which the lookahead holds. -/
def lazyCapture (look : List Char → Bool) : List Char → Option (List Char)
  | [] => none
  | c :: rest =>
    if c = '\n' then none
    else if look rest then some [c]
    else (lazyCapture look rest).map (fun g => c :: g)

/-- Backtracking of greedy `\s*` before a lazy capture: try consuming `w`
whitespace characters for `w` from the maximal run down to `0`, taking the
first branch in which the lazy capture succeeds. -/
def wsBacktrack (look : List Char → Bool) (cs : List Char) : Nat → Option (List Char)
  | 0 => lazyCapture look cs
  | w + 1 =>
    match lazyCapture look (cs.drop (w + 1)) with
    | some g => some g
    | none => wsBacktrack look cs w

/-- Attempt `Label:\s*(.+?)(?=look)` anchored at the current position. -/
def fieldAt (label : List Char) (look : List Char → Bool) (cs : List Char) :
    Option (List Char) :=
  match dropLit label cs with
  | none => none
  | some rest => wsBacktrack look rest (rest.takeWhile pyIsSpace).length

/-- Generic `search` for the attitude/relationship shaped patterns. -/
def fieldSearch (label : List Char) (look : List Char → Bool) :
    List Char → Option (List Char)
  | [] => none
  | c :: rest =>
    match fieldAt label look (c :: rest) with
    | some g => some g
    | none => fieldSearch label look rest

/-- `attitude_pattern.search`, returning the capture group. -/
def attitudeSearch (cs : List Char) : Option (List Char) :=
  fieldSearch attitudeLabel attLookahead cs

/-- `relationship_pattern.search`, returning the capture group. -/
def relationshipSearch (cs : List Char) : Option (List Char) :=
  fieldSearch relationshipLabel relLookahead cs

/-! ### The locate pass (src/main.py lines 90-93, 176)

The source compiles
`block_pattern = re.compile(r"$$\s*(?:Favour:|Attitude:|Relationship:).*?$$", re.DOTALL)`.
In a Python pattern without `re.MULTILINE`, `$` is a zero-width anchor that
matches only at the end of the string or just before a terminating newline,
so the pattern as written is delimited by anchors, not brackets.  It is
embedded literally below (`litBlockFound`) and proved to match no text at
all.  The code's own comments (lines 97-100 speak of the value running
until `]`) and the instruction prompt it injects (line 137 mandates the
format `[Favour: ..., Attitude: ..., Relationship: ...]`) show the intended
delimiters are `\[` and `\]`. -/

/-- The label alternation `(?:Favour:|Attitude:|Relationship:)`: returns the
matched label and the remaining characters. -/
def anyLabelHere (cs : List Char) : Option (List Char × List Char) :=
  match dropLit favourLabel cs with
  | some rest => some (favourLabel, rest)
  | none =>
    match dropLit attitudeLabel cs with
    | some rest => some (attitudeLabel, rest)
    | none =>
      match dropLit relationshipLabel cs with
      | some rest => some (relationshipLabel, rest)
      | none => none

/-- Positions where Python `$` matches (no MULTILINE), expressed on the
remaining suffix of the subject: at the very end, or just before a final
newline. -/
def dollarAnchorSuffix (r : List Char) : Bool :=
  match r with
  | [] => true
  | c :: rest => c = '\n' && rest.isEmpty

/-- Match attempt of the literal pattern
`$$\s*(?:Favour:|Attitude:|Relationship:).*?$$` (DOTALL) at one start
position, given as the suffix from that position: the two `$` anchors, then
some run of `\s*` (any backtracking choice), a label, then `.*?` reaching a
position where the closing `$$` anchors hold. -/
def litBlockMatchAt (r : List Char) : Bool :=
  dollarAnchorSuffix r && dollarAnchorSuffix r &&
  (List.range ((r.takeWhile pyIsSpace).length + 1)).any (fun w =>
    match anyLabelHere (r.drop w) with
    | some (_, rest3) =>
      (List.range (rest3.length + 1)).any (fun m =>
        dollarAnchorSuffix (rest3.drop m) && dollarAnchorSuffix (rest3.drop m))
    | none => false)

/-- `block_pattern.search(text)` succeeds, for the pattern as literally
written in the source: some start position admits a match. -/
def litBlockFound : List Char → Bool
  | [] => litBlockMatchAt []
  | c :: rest => litBlockMatchAt (c :: rest) || litBlockFound rest

/-- Like `litBlockMatchAt` but returning the matched text (`group(0)`):
the characters that the anchors, the greedy `\s*`, the label and the lazy
`.*?` consume.  `\s*` is tried from the longest run downwards and `.*?`
from the shortest middle upwards, mirroring the engine's backtracking
order. -/
def litBlockMatchTextAt (r : List Char) : Option (List Char) :=
  if dollarAnchorSuffix r && dollarAnchorSuffix r then
    ((List.range ((r.takeWhile pyIsSpace).length + 1)).reverse).findSome?
      (fun w =>
        match anyLabelHere (r.drop w) with
        | some (lab, rest3) =>
          (List.range (rest3.length + 1)).findSome? (fun m =>
            if dollarAnchorSuffix (rest3.drop m) &&
                dollarAnchorSuffix (rest3.drop m) then
              some (r.take w ++ (lab ++ rest3.take m))
            else none)
        | none => none)
  else none

/-- `block_pattern.search(text)` for the pattern as literally written in
the source, returning the matched block text `block_match.group(0)` of the
leftmost start position that admits a match.  This is the locate pass the
reconciler actually runs (line 176); it is proved below to return `none`
on every text. -/
def litBlockSearch : List Char → Option (List Char)
  | [] => litBlockMatchTextAt []
  | c :: rest =>
    match litBlockMatchTextAt (c :: rest) with
    | some b => some b
    | none => litBlockSearch rest

/-- Characters up to and including the first `]` (the lazy `.*?\]` under
DOTALL), or `none` when no `]` follows. -/
def takeThroughRBracket : List Char → Option (List Char)
  | [] => none
  | c :: rest =>
    if c = ']' then some [c]
    else (takeThroughRBracket rest).map (fun t => c :: t)

/-- Continuation of a block attempt after an opening `[`: greedy `\s*`
(only the full whitespace run can precede a label letter), one of the
three labels, then lazily up to the first `]`.  Returns the whole matched
block. -/
def tryBlockBody (rest : List Char) : Option (List Char) :=
  (anyLabelHere (rest.dropWhile pyIsSpace)).bind (fun p =>
    (takeThroughRBracket p.2).map (fun mid =>
      '[' :: (rest.takeWhile pyIsSpace ++ (p.1 ++ mid))))

/-- Match attempt of the bracket block pattern at one start position:
an opening `[` followed by `tryBlockBody`. -/
def tryBlockAt (cs : List Char) : Option (List Char) :=
  match cs with
  | [] => none
  | c :: rest => if c = '[' then tryBlockBody rest else none

/-- The spec's bracketing convention, written from the spec's words as a
comparison point for the literal `block_pattern`: the leftmost
`\[\s*(?:Favour:|Attitude:|Relationship:).*?\]` match, with the source's
exact (case-sensitive) labels.  The claim theorems use it only to state
that a text CONTAINS a bracket-delimited labelled block — the block the
code's comments and injected instruction prompt intend to find.  It is
deliberately not wired into `on_llm_resp`: the source searches with the
literal anchor-delimited `block_pattern` (`litBlockSearch`), which
matches nothing. -/
def locateBlock : List Char → Option (List Char)
  | [] => none
  | c :: rest =>
    match tryBlockAt (c :: rest) with
    | some b => some b
    | none => locateBlock rest

/-! ### Block stripping (src/main.py line 184)

`cleaned_text = original_text.replace(block_text, '').strip()` -/

/-- Scanner for Python `str.replace(old, "")` with a nonempty pattern
`bh :: bt`: where the pattern is a prefix, drop it and continue after it;
otherwise keep one character.  The fuel argument only makes the recursion
structural; any fuel at least the subject's length gives the same result
(`replaceAllGo_fuel_irrel`). -/
def replaceAllGo (bh : Char) (bt : List Char) : Nat → List Char → List Char
  | _, [] => []
  | 0, s => s
  | fuel + 1, c :: rest =>
    if bh = c && bt.isPrefixOf rest then
      replaceAllGo bh bt fuel (rest.drop bt.length)
    else
      c :: replaceAllGo bh bt fuel rest

/-- Python `str.replace(old, "")` for the nonempty pattern `bh :: bt`. -/
def replaceAll (bh : Char) (bt : List Char) (s : List Char) : List Char :=
  replaceAllGo bh bt s.length s

/-! ### The state store `FavourProManager` (src/main.py lines 12-69)

Stored favour values may be integers or (from hand-edited or legacy JSON)
strings, so the favour field carries a small Python-value sum type.  The
mapping is an association list in insertion order, matching CPython dict
semantics.  `DEFAULT_STATE` is configurable at startup
(lines 83-88), so the operations take the default record as a parameter.
`_save_data` persistence is file I/O outside the model. -/

inductive Value where
  | intV : Int → Value
  | strV : List Char → Value
deriving DecidableEq

/-- A user record: `{"favour": int, "attitude": str, "relationship": str}`.
All three fields are present in every record the code builds. -/
structure PyState where
  favour : Value
  attitude : List Char
  relationship : List Char
deriving DecidableEq

/-- DEFAULT_STATE (line 19). -/
def DEFAULT_STATE : PyState :=
  { favour := Value.intV 20, attitude := ("中立").data,
    relationship := ("陌生人").data }

/-- Python `int(x)` on a stored value: identity on integers, string parse on
strings; `none` where Python raises. -/
def pyToInt : Value → Option Int
  | Value.intV n => some n
  | Value.strV s => pyStrToInt s

/-- Key construction (lines 53 and 58):
`key = f"{session_id}_{user_id}" if session_id else user_id`. -/
def makeKey (sessionId : Option (List Char)) (userId : List Char) : List Char :=
  match sessionId with
  | some s => s ++ '_' :: userId
  | none => userId

/-- Python `dict.get(key, default)` returning `none` when absent. -/
def lookupKey : List (List Char × PyState) → List Char → Option PyState
  | [], _ => none
  | (k, v) :: rest, key => if k = key then some v else lookupKey rest key

/-- Python dict assignment: an existing key keeps its slot, a new key is
appended (CPython preserves insertion order). -/
def setKey : List (List Char × PyState) → List Char → PyState →
    List (List Char × PyState)
  | [], key, v => [(key, v)]
  | (k, w) :: rest, key, v =>
    if k = key then (key, v) :: rest else (k, w) :: setKey rest key v

/-- `get_user_state` (lines 51-54): stored record or a copy of the default. -/
def get_user_state (default : PyState) (store : List (List Char × PyState))
    (userId : List Char) (sessionId : Option (List Char)) : PyState :=
  (lookupKey store (makeKey sessionId userId)).getD default

/-- `update_user_state` (lines 56-69): coerce `favour` with `int()`; on
failure fall back to `get_user_state(...)['favour']` (the stored value, or
the default's favour when the key is absent — `'favour'` is present in
every record, so `current_state.get('favour', DEFAULT_STATE['favour'])` is
that record's favour); then assign under the key. -/
def update_user_state (default : PyState) (store : List (List Char × PyState))
    (userId : List Char) (new : PyState) (sessionId : Option (List Char)) :
    List (List Char × PyState) :=
  let favour' :=
    match pyToInt new.favour with
    | some n => Value.intV n
    | none => (get_user_state default store userId sessionId).favour
  setKey store (makeKey sessionId userId) { new with favour := favour' }

/-! ### Parse, merge and the response hook (src/main.py lines 165-207) -/

/-- The cut set of `.strip(' ,')` (lines 203 and 205). -/
def spaceComma : List Char := [' ', ',']

/-- Lines 201-205: a text field (attitude or relationship) is overwritten
with `match.group(1).strip(' ,')` when its pattern matched, and kept
otherwise. -/
def fieldOr (prior : List Char) : Option (List Char) → List Char
  | none => prior
  | some g => pyStripCut spaceComma g

/-- Lines 199-200: the favour field is overwritten with
`int(match.group(1).strip())` when the favour pattern matched (`.error ()`
marks where `int()` would raise — proved unreachable below), and kept
otherwise. -/
def favourOr (prior : Value) : Option (List Char) → Except Unit Value
  | none => Except.ok prior
  | some g =>
    match pyStrToInt (pyStripWs g) with
    | some n => Except.ok (Value.intV n)
    | none => Except.error ()

/-- Lines 188-205: run the three field patterns over the captured block
text, and merge the parsed fields into the current state.  `.ok none` is
line 193's early return (no field matched). -/
def parseAndMerge (prior : PyState) (b : List Char) :
    Except Unit (Option PyState) :=
  if (favourSearch b).isNone && (attitudeSearch b).isNone &&
      (relationshipSearch b).isNone then
    Except.ok none
  else
    match favourOr prior.favour (favourSearch b) with
    | Except.error e => Except.error e
    | Except.ok f =>
      Except.ok (some
        { favour := f,
          attitude := fieldOr prior.attitude (attitudeSearch b),
          relationship := fieldOr prior.relationship (relationshipSearch b) })

/-- Result of one `on_llm_resp` turn: the completion text handed back, the
store afterwards, and whether `update_user_state` was called. -/
structure RespResult where
  cleanedText : List Char
  store : List (List Char × PyState)
  updated : Bool
deriving DecidableEq

instance {α : Type} [DecidableEq α] : DecidableEq (Except Unit α) := fun a b =>
  match a, b with
  | Except.error x, Except.error y => isTrue (by cases x; cases y; rfl)
  | Except.error _, Except.ok _ => isFalse (by simp)
  | Except.ok _, Except.error _ => isFalse (by simp)
  | Except.ok x, Except.ok y =>
    if h : x = y then isTrue (by rw [h]) else isFalse (by simp [h])

/-- Lines 182-207, after a block `bh :: bt` has been located: strip every
occurrence of the block from the text first (line 184,
`original_text.replace(block_text, '').strip()`), then parse and merge,
and persist only when at least one field parsed. -/
def afterLocate (default : PyState) (store : List (List Char × PyState))
    (userId : List Char) (sessionId : Option (List Char)) (text : List Char)
    (bh : Char) (bt : List Char) : Except Unit RespResult :=
  match parseAndMerge (get_user_state default store userId sessionId)
      (bh :: bt) with
  | Except.error e => Except.error e
  | Except.ok none =>
    Except.ok
      { cleanedText := pyStripWs (replaceAll bh bt text), store := store,
        updated := false }
  | Except.ok (some merged) =>
    Except.ok
      { cleanedText := pyStripWs (replaceAll bh bt text),
        store := update_user_state default store userId merged sessionId,
        updated := true }

/-- `on_llm_resp` (lines 165-207), faithful to the source: search with the
literal `block_pattern` (`litBlockSearch`, line 176); on failure return
everything unchanged (lines 179-180); otherwise continue with
`afterLocate` (lines 182-207).  Since the literal pattern matches no text
(`litBlockSearch_eq_none`), the located branch — including the `some []`
guard arm — is provably unreachable, and every turn is a no-op. -/
def on_llm_resp (default : PyState) (store : List (List Char × PyState))
    (userId : List Char) (sessionId : Option (List Char)) (text : List Char) :
    Except Unit RespResult :=
  match litBlockSearch text with
  | none => Except.ok { cleanedText := text, store := store, updated := false }
  | some [] => Except.ok { cleanedText := text, store := store, updated := false }
  | some (bh :: bt) => afterLocate default store userId sessionId text bh bt

/-! ### Admin rankings (src/main.py lines 342-411)

`sorted(self.manager.user_data.items(), key=lambda item: item[1].get('favour', 0), reverse=True)[:limit]`
and the ascending variant.  CPython's sort is stable, and `reverse=True`
does not reorder tied elements; this is embedded as a stable insertion
sort.  Comparing a non-integer favour would raise `TypeError` in Python,
so the ranking claims are stated for stores whose favour values are all
integers; the `0` below is the `.get` default and is never reached on such
stores. -/

/-- The sort key `item[1].get('favour', 0)`. -/
def keyOf (st : PyState) : Int :=
  match st.favour with
  | Value.intV n => n
  | Value.strV _ => 0

/-- Stable descending insert: an element passes over strictly greater keys
and lands before the first tie. -/
def insertDesc (e : List Char × PyState) :
    List (List Char × PyState) → List (List Char × PyState)
  | [] => [e]
  | x :: xs =>
    if keyOf e.2 < keyOf x.2 then x :: insertDesc e xs else e :: x :: xs

def sortDescFav : List (List Char × PyState) → List (List Char × PyState)
  | [] => []
  | x :: xs => insertDesc x (sortDescFav xs)

/-- Stable ascending insert. -/
def insertAsc (e : List Char × PyState) :
    List (List Char × PyState) → List (List Char × PyState)
  | [] => [e]
  | x :: xs =>
    if keyOf x.2 < keyOf e.2 then x :: insertAsc e xs else e :: x :: xs

def sortAscFav : List (List Char × PyState) → List (List Char × PyState)
  | [] => []
  | x :: xs => insertAsc x (sortAscFav xs)

/-- `admin_favour_ranking` (lines 361-369): top `limit` after the stable
descending sort. -/
def favourRanking (store : List (List Char × PyState)) (limit : Nat) :
    List (List Char × PyState) :=
  (sortDescFav store).take limit

/-- `admin_negative_favour_ranking` (lines 397-404): bottom `limit` after
the stable ascending sort. -/
def negativeFavourRanking (store : List (List Char × PyState)) (limit : Nat) :
    List (List Char × PyState) :=
  (sortAscFav store).take limit

/-! ### Projections of a successful turn result -/

def okCleaned : Except Unit RespResult → Option (List Char)
  | Except.ok r => some r.cleanedText
  | Except.error _ => none

def okStore : Except Unit RespResult → Option (List (List Char × PyState))
  | Except.ok r => some r.store
  | Except.error _ => none

def okUpdated : Except Unit RespResult → Option Bool
  | Except.ok r => some r.updated
  | Except.error _ => none

/-! ## Supporting lemmas -/

/-- The literal `$` anchor matches only at the end or before a final
newline. -/
theorem dollarAnchorSuffix_cases (r : List Char)
    (h : dollarAnchorSuffix r = true) : r = [] ∨ r = ['\n'] := by
  cases r with
  | nil => exact Or.inl rfl
  | cons c rest =>
    simp only [dollarAnchorSuffix, Bool.and_eq_true, decide_eq_true_eq,
      List.isEmpty_iff] at h
    exact Or.inr (by rw [h.1, h.2])

/-- No start position admits a match of the literal block pattern: after an
end-of-string anchor there is no room for a label. -/
theorem litBlockMatchAt_eq_false (r : List Char) :
    litBlockMatchAt r = false := by
  by_cases h : dollarAnchorSuffix r = true
  · rcases dollarAnchorSuffix_cases r h with h' | h' <;> subst h' <;> decide
  · have h' : dollarAnchorSuffix r = false := by
      revert h
      cases dollarAnchorSuffix r <;> simp
    simp [litBlockMatchAt, h']

/-- The `block_pattern` literally compiled by the source matches no text at
all. -/
theorem litBlockFound_eq_false (s : List Char) : litBlockFound s = false := by
  induction s with
  | nil => decide
  | cons c rest ih => simp [litBlockFound, litBlockMatchAt_eq_false, ih]

/-- The text-returning match attempt fails at every position, for the same
reason as `litBlockMatchAt_eq_false`. -/
theorem litBlockMatchTextAt_eq_none (r : List Char) :
    litBlockMatchTextAt r = none := by
  by_cases h : dollarAnchorSuffix r = true
  · rcases dollarAnchorSuffix_cases r h with h' | h' <;> subst h' <;> decide
  · have h' : dollarAnchorSuffix r = false := by
      revert h
      cases dollarAnchorSuffix r <;> simp
    simp [litBlockMatchTextAt, h']

/-- The locate pass the reconciler actually runs finds nothing on any
text. -/
theorem litBlockSearch_eq_none (s : List Char) : litBlockSearch s = none := by
  induction s with
  | nil => decide
  | cons c rest ih => simp [litBlockSearch, litBlockMatchTextAt_eq_none, ih]

/-- Looking up the key just assigned returns the assigned record. -/
theorem lookupKey_setKey_self (store : List (List Char × PyState))
    (key : List Char) (v : PyState) :
    lookupKey (setKey store key v) key = some v := by
  induction store with
  | nil => simp [setKey, lookupKey]
  | cons hd tl ih =>
    obtain ⟨k, w⟩ := hd
    by_cases h : k = key <;> simp [setKey, lookupKey, h, ih]

/-- A digit character is not equal to any non-digit character. -/
theorem digit_ne (c d : Char) (h : c.isDigit = true) (hd : d.isDigit = false) :
    decide (c = d) = false := by
  apply decide_eq_false
  intro e
  subst e
  rw [h] at hd
  exact Bool.noConfusion hd

/-- Digits are not Python whitespace. -/
theorem pyIsSpace_eq_false_of_isDigit (c : Char) (h : c.isDigit = true) :
    pyIsSpace c = false := by
  simp only [pyIsSpace]
  rw [digit_ne c ' ' h (by decide), digit_ne c '\t' h (by decide),
    digit_ne c '\n' h (by decide), digit_ne c '\r' h (by decide),
    digit_ne c '\x0b' h (by decide), digit_ne c '\x0c' h (by decide)]
  rfl

/-- A whitespace test is false on every character of an all-digit list. -/
theorem all_digits_no_space (l : List Char) (h : ∀ c ∈ l, c.isDigit = true) :
    ∀ c ∈ l, pyIsSpace c = false :=
  fun c hc => pyIsSpace_eq_false_of_isDigit c (h c hc)

/-- dropWhile is the identity when the predicate fails on every element
(only the head actually matters). -/
theorem dropWhile_eq_self_of_all (p : Char → Bool) (l : List Char)
    (h : ∀ c ∈ l, p c = false) : l.dropWhile p = l := by
  cases l with
  | nil => rfl
  | cons c rest => simp [List.dropWhile_cons, h c (by simp)]

/-- `str.strip()` is the identity on lists without whitespace. -/
theorem pyStripWs_eq_self (l : List Char)
    (h : ∀ c ∈ l, pyIsSpace c = false) : pyStripWs l = l := by
  unfold pyStripWs
  rw [dropWhile_eq_self_of_all pyIsSpace l h,
    dropWhile_eq_self_of_all pyIsSpace l.reverse
      (fun c hc => h c (List.mem_reverse.mp hc)),
    List.reverse_reverse]

/-- The digit-run scanner succeeds on all-digit input. -/
theorem digitsGo_isSome (l : List Char) (h : ∀ c ∈ l, c.isDigit = true) :
    ∀ acc, ∃ n, digitsGo acc l = some n := by
  induction l with
  | nil => exact fun acc => ⟨acc, rfl⟩
  | cons c rest ih =>
    intro acc
    have hc := h c (by simp)
    rw [digitsGo.eq_def]
    simp only [hc, if_true]
    exact ih (fun d hd => h d (by simp [hd])) _

/-- `parseDigits` succeeds on nonempty all-digit input. -/
theorem parseDigits_isSome (c : Char) (l : List Char)
    (hc : c.isDigit = true) (h : ∀ d ∈ l, d.isDigit = true) :
    ∃ n, parseDigits (c :: l) = some n := by
  simp only [parseDigits, hc, if_true]
  exact digitsGo_isSome l h _

/-- Python `int()` succeeds on a string of shape `-?\d+`. -/
theorem pyStrToInt_digits (c : Char) (l : List Char)
    (hc : c.isDigit = true) (h : ∀ d ∈ l, d.isDigit = true) :
    ∃ n, pyStrToInt (c :: l) = some n := by
  have hs : pyStripWs (c :: l) = c :: l :=
    pyStripWs_eq_self _ (by
      intro d hd
      rcases List.mem_cons.mp hd with e | e
      · exact e ▸ pyIsSpace_eq_false_of_isDigit c hc
      · exact pyIsSpace_eq_false_of_isDigit d (h d e))
  obtain ⟨n, hn⟩ := parseDigits_isSome c l hc h
  refine ⟨n, ?_⟩
  simp only [pyStrToInt, hs]
  have h1 : decide (c = '-') = false := digit_ne c '-' hc (by decide)
  have h2 : decide (c = '+') = false := digit_ne c '+' hc (by decide)
  simp only [decide_eq_true_eq] at h1 h2
  rw [if_neg (by simpa using h1), if_neg (by simpa using h2), hn]
  rfl

/-- Python `int()` succeeds on a negative string of shape `-\d+`. -/
theorem pyStrToInt_neg_digits (c : Char) (l : List Char)
    (hc : c.isDigit = true) (h : ∀ d ∈ l, d.isDigit = true) :
    ∃ n, pyStrToInt ('-' :: c :: l) = some n := by
  have hs : pyStripWs ('-' :: c :: l) = '-' :: c :: l :=
    pyStripWs_eq_self _ (by
      intro d hd
      rcases List.mem_cons.mp hd with e | e
      · subst e; decide
      · rcases List.mem_cons.mp e with e' | e'
        · exact e' ▸ pyIsSpace_eq_false_of_isDigit c hc
        · exact pyIsSpace_eq_false_of_isDigit d (h d e'))
  obtain ⟨n, hn⟩ := parseDigits_isSome c l hc h
  refine ⟨-(n : Int), ?_⟩
  simp [pyStrToInt, hs, hn]

/-- Whatever the favour capture group matched is an optional minus sign
followed by digits, and `int()` succeeds on it. -/
theorem favourCaptureHere_toInt (cs g : List Char)
    (h : favourCaptureHere cs = some g) :
    (∀ c ∈ g, pyIsSpace c = false) ∧ ∃ n, pyStrToInt g = some n := by
  cases cs with
  | nil => exact absurd h (by simp [favourCaptureHere])
  | cons c rest =>
    by_cases hneg : c = '-'
    · subst hneg
      cases rest with
      | nil => exact absurd h (by simp [favourCaptureHere])
      | cons d ds =>
        by_cases hd : d.isDigit = true
        · have hg : g = '-' :: d :: ds.takeWhile Char.isDigit := by
            have := h
            simp only [favourCaptureHere, if_pos rfl, hd, if_true] at this
            exact (Option.some_injective _ this).symm
          subst hg
          have htw : ∀ x ∈ ds.takeWhile Char.isDigit, x.isDigit = true :=
            fun x hx => List.mem_takeWhile_imp hx
          constructor
          · intro x hx
            rcases List.mem_cons.mp hx with e | e
            · subst e; decide
            · rcases List.mem_cons.mp e with e' | e'
              · exact e' ▸ pyIsSpace_eq_false_of_isDigit d hd
              · exact pyIsSpace_eq_false_of_isDigit x (htw x e')
          · exact pyStrToInt_neg_digits d _ hd htw
        · exact absurd h (by
            simp [favourCaptureHere, hd])
    · by_cases hdig : c.isDigit = true
      · have hg : g = c :: rest.takeWhile Char.isDigit := by
          have := h
          simp only [favourCaptureHere, hneg, if_false, hdig, if_true] at this
          exact (Option.some_injective _ this).symm
        subst hg
        have htw : ∀ x ∈ rest.takeWhile Char.isDigit, x.isDigit = true :=
          fun x hx => List.mem_takeWhile_imp hx
        constructor
        · intro x hx
          rcases List.mem_cons.mp hx with e | e
          · exact e ▸ pyIsSpace_eq_false_of_isDigit c hdig
          · exact pyIsSpace_eq_false_of_isDigit x (htw x e)
        · exact pyStrToInt_digits c _ hdig htw
      · exact absurd h (by simp [favourCaptureHere, hneg, hdig])

/-- `favourAt` only returns captures `int()` accepts. -/
theorem favourAt_toInt (cs g : List Char) (h : favourAt cs = some g) :
    (∀ c ∈ g, pyIsSpace c = false) ∧ ∃ n, pyStrToInt g = some n := by
  unfold favourAt at h
  cases hdl : dropLit favourLabel cs with
  | none => rw [hdl] at h; exact absurd h (by simp)
  | some rest =>
    rw [hdl] at h
    exact favourCaptureHere_toInt _ g h

/-- Every capture of `favour_pattern.search` converts with `int()` after
`strip()`. -/
theorem favourSearch_toInt (b g : List Char) (h : favourSearch b = some g) :
    ∃ n, pyStrToInt (pyStripWs g) = some n := by
  induction b with
  | nil => exact absurd h (by simp [favourSearch])
  | cons c rest ih =>
    rw [favourSearch] at h
    cases hat : favourAt (c :: rest) with
    | some g' =>
      rw [hat] at h
      obtain ⟨hws, n, hn⟩ := favourAt_toInt _ _ hat
      cases h
      rw [pyStripWs_eq_self g hws]
      exact ⟨n, hn⟩
    | none =>
      rw [hat] at h
      exact ih h

/-- Parse-and-merge never reaches the `int()` error: the only raise point
feeds `int()` a favour capture, and those always convert. -/
theorem parseAndMerge_isOk (prior : PyState) (b : List Char) :
    ∃ r, parseAndMerge prior b = Except.ok r := by
  unfold parseAndMerge
  by_cases hz :
      ((favourSearch b).isNone && (attitudeSearch b).isNone &&
        (relationshipSearch b).isNone) = true
  · exact ⟨none, by rw [if_pos hz]⟩
  · rw [if_neg hz]
    cases hfm : favourSearch b with
    | none => exact ⟨_, rfl⟩
    | some g =>
      obtain ⟨n, hn⟩ := favourSearch_toInt b g hfm
      simp only [favourOr, hn]
      exact ⟨_, rfl⟩

/-- When no field pattern matches the block, the merge is the early
`return` of line 193. -/
theorem parseAndMerge_zero_fields (prior : PyState) (b : List Char)
    (h1 : favourSearch b = none) (h2 : attitudeSearch b = none)
    (h3 : relationshipSearch b = none) :
    parseAndMerge prior b = Except.ok none := by
  simp [parseAndMerge, h1, h2, h3]

/-- Full characterisation of a successful merge: each field is the parsed
capture when its pattern matched and the prior value otherwise. -/
theorem parseAndMerge_some_spec (prior : PyState) (b : List Char)
    (m : PyState) (h : parseAndMerge prior b = Except.ok (some m)) :
    (favourSearch b = none → m.favour = prior.favour) ∧
    (∀ g, favourSearch b = some g →
      ∃ n, pyStrToInt (pyStripWs g) = some n ∧ m.favour = Value.intV n) ∧
    (attitudeSearch b = none → m.attitude = prior.attitude) ∧
    (∀ g, attitudeSearch b = some g →
      m.attitude = pyStripCut spaceComma g) ∧
    (relationshipSearch b = none → m.relationship = prior.relationship) ∧
    (∀ g, relationshipSearch b = some g →
      m.relationship = pyStripCut spaceComma g) := by
  unfold parseAndMerge at h
  by_cases hz :
      ((favourSearch b).isNone && (attitudeSearch b).isNone &&
        (relationshipSearch b).isNone) = true
  · rw [if_pos hz] at h
    exact absurd h (by simp)
  · rw [if_neg hz] at h
    cases hfm : favourSearch b with
    | some g =>
      obtain ⟨n, hn⟩ := favourSearch_toInt b g hfm
      rw [hfm] at h
      simp only [favourOr, hn] at h
      have hm :
          ({ favour := Value.intV n,
             attitude := fieldOr prior.attitude (attitudeSearch b),
             relationship :=
               fieldOr prior.relationship (relationshipSearch b) } :
            PyState) = m := by
        simpa using h
      subst hm
      refine ⟨?_, ?_, ?_, ?_, ?_, ?_⟩
      · intro e
        exact Option.noConfusion e
      · intro g' hg'
        have hg : g = g' := by simpa using hg'
        subst hg
        exact ⟨n, hn, rfl⟩
      · intro ha
        simp [fieldOr, ha]
      · intro g' hg'
        simp [fieldOr, hg']
      · intro hr
        simp [fieldOr, hr]
      · intro g' hg'
        simp [fieldOr, hg']
    | none =>
      rw [hfm] at h
      simp only [favourOr] at h
      have hm :
          ({ favour := prior.favour,
             attitude := fieldOr prior.attitude (attitudeSearch b),
             relationship :=
               fieldOr prior.relationship (relationshipSearch b) } :
            PyState) = m := by
        simpa using h
      subst hm
      refine ⟨fun _ => rfl, ?_, ?_, ?_, ?_, ?_⟩
      · intro g' hg'
        exact Option.noConfusion hg'
      · intro ha
        simp [fieldOr, ha]
      · intro g' hg'
        simp [fieldOr, hg']
      · intro hr
        simp [fieldOr, hr]
      · intro g' hg'
        simp [fieldOr, hg']

/-- A block attempt succeeds only on text beginning with `[`, and the
matched block itself begins with `[`. -/
theorem tryBlockAt_shape (cs b : List Char) (h : tryBlockAt cs = some b) :
    ∃ bt, b = '[' :: bt := by
  cases cs with
  | nil => exact absurd h (by simp [tryBlockAt])
  | cons c rest =>
    by_cases hc : c = '['
    · simp only [tryBlockAt, hc, if_true] at h
      unfold tryBlockBody at h
      cases hl : anyLabelHere (rest.dropWhile pyIsSpace) with
      | none => rw [hl] at h; exact absurd h (by simp)
      | some p =>
        obtain ⟨lab, rest3⟩ := p
        rw [hl] at h
        cases htr : takeThroughRBracket rest3 with
        | none =>
          rw [Option.some_bind] at h
          rw [htr] at h
          exact absurd h (by simp)
        | some mid =>
          rw [Option.some_bind] at h
          rw [htr] at h
          have hb : '[' :: (rest.takeWhile pyIsSpace ++ (lab ++ mid)) = b := by
            simpa using h
          exact ⟨_, hb.symm⟩
    · exact absurd h (by simp [tryBlockAt, hc])

/-- A located block always begins with `[`. -/
theorem locateBlock_shape (text b : List Char)
    (h : locateBlock text = some b) : ∃ bt, b = '[' :: bt := by
  induction text with
  | nil => exact absurd h (by simp [locateBlock])
  | cons c rest ih =>
    rw [locateBlock] at h
    cases htry : tryBlockAt (c :: rest) with
    | some b' =>
      rw [htry] at h
      cases h
      exact tryBlockAt_shape _ _ htry
    | none =>
      rw [htry] at h
      exact ih h

theorem replaceAllGo_nil (bh : Char) (bt : List Char) (f : Nat) :
    replaceAllGo bh bt f [] = [] := by
  cases f <;> rfl

theorem replaceAllGo_succ_cons (bh : Char) (bt : List Char) (fuel : Nat)
    (c : Char) (rest : List Char) :
    replaceAllGo bh bt (fuel + 1) (c :: rest) =
      if bh = c && bt.isPrefixOf rest then
        replaceAllGo bh bt fuel (rest.drop bt.length)
      else
        c :: replaceAllGo bh bt fuel rest := rfl

/-- The scanner ignores its fuel as long as there is enough of it. -/
theorem replaceAllGo_fuel_irrel (bh : Char) (bt : List Char) :
    ∀ (f₁ : Nat) (s : List Char) (f₂ : Nat), s.length ≤ f₁ →
      s.length ≤ f₂ → replaceAllGo bh bt f₁ s = replaceAllGo bh bt f₂ s := by
  intro f₁
  induction f₁ with
  | zero =>
    intro s f₂ h1 _
    have : s = [] := List.eq_nil_of_length_eq_zero (Nat.le_zero.mp h1)
    subst this
    rw [replaceAllGo_nil, replaceAllGo_nil]
  | succ a ih =>
    intro s f₂ h1 h2
    cases s with
    | nil => rw [replaceAllGo_nil, replaceAllGo_nil]
    | cons c rest =>
      cases f₂ with
      | zero => exact absurd h2 (by simp)
      | succ e =>
        rw [replaceAllGo_succ_cons, replaceAllGo_succ_cons]
        have ha : rest.length ≤ a := by
          have := h1
          simp only [List.length_cons] at this
          omega
        have he : rest.length ≤ e := by
          have := h2
          simp only [List.length_cons] at this
          omega
        by_cases hcond : (bh = c && bt.isPrefixOf rest) = true
        · rw [if_pos hcond, if_pos hcond]
          exact ih _ _
            (by rw [List.length_drop]; omega)
            (by rw [List.length_drop]; omega)
        · rw [if_neg hcond, if_neg hcond, ih rest e ha he]

/-- Scanning past a character that cannot start the pattern keeps it. -/
theorem replaceAll_cons_ne (bh : Char) (bt : List Char) (x : Char)
    (l : List Char) (hx : ¬ bh = x) :
    replaceAll bh bt (x :: l) = x :: replaceAll bh bt l := by
  show replaceAllGo bh bt (l.length + 1) (x :: l) = _
  rw [replaceAllGo_succ_cons, if_neg (by simp [hx])]
  rfl

/-- Removal distributes over a prefix free of the pattern's head
character. -/
theorem replaceAll_clean_append (bh : Char) (bt : List Char)
    (u v : List Char) (h : ∀ x ∈ u, x ≠ bh) :
    replaceAll bh bt (u ++ v) = u ++ replaceAll bh bt v := by
  induction u with
  | nil => rfl
  | cons x u' ih =>
    rw [List.cons_append,
      replaceAll_cons_ne bh bt x _ (fun e => h x (by simp) e.symm),
      ih (fun y hy => h y (by simp [hy]))]
    rfl

theorem isPrefixOf_append_self (l v : List Char) :
    l.isPrefixOf (l ++ v) = true := by
  induction l with
  | nil => cases v <;> rfl
  | cons c cl ih =>
    rw [List.cons_append]
    show (c == c && cl.isPrefixOf (cl ++ v)) = true
    simp [ih]

/-- At an occurrence of the pattern, the scanner removes exactly it. -/
theorem replaceAll_pattern_head (bh : Char) (bt v : List Char) :
    replaceAll bh bt ((bh :: bt) ++ v) = replaceAll bh bt v := by
  show replaceAllGo bh bt ((bh :: bt) ++ v).length ((bh :: bt) ++ v) = _
  rw [List.cons_append]
  rw [show ((bh :: (bt ++ v)).length) = (bt ++ v).length + 1 by simp]
  rw [replaceAllGo_succ_cons]
  rw [if_pos (by simp [isPrefixOf_append_self])]
  rw [List.drop_left]
  exact replaceAllGo_fuel_irrel bh bt _ v _ (by simp) (le_refl _)

/-- A text free of the pattern's head character is left unchanged. -/
theorem replaceAll_clean (bh : Char) (bt u : List Char)
    (h : ∀ x ∈ u, x ≠ bh) : replaceAll bh bt u = u := by
  have h2 := replaceAll_clean_append bh bt u [] h
  rw [List.append_nil] at h2
  rw [h2]
  show u ++ replaceAllGo bh bt 0 [] = u
  rw [replaceAllGo_nil, List.append_nil]

/-- Every turn of the faithful `on_llm_resp` returns its text unchanged
with no store write: the locate pass never fires. -/
theorem on_llm_resp_unchanged (default : PyState)
    (store : List (List Char × PyState)) (userId : List Char)
    (sessionId : Option (List Char)) (text : List Char) :
    on_llm_resp default store userId sessionId text =
      Except.ok { cleanedText := text, store := store, updated := false } := by
  unfold on_llm_resp
  rw [litBlockSearch_eq_none]

/-- A turn whose block parses no field strips the block and leaves the
store untouched. -/
theorem afterLocate_zero (default : PyState)
    (store : List (List Char × PyState)) (userId : List Char)
    (sessionId : Option (List Char)) (text : List Char) (bh : Char)
    (bt : List Char)
    (hz : parseAndMerge (get_user_state default store userId sessionId)
      (bh :: bt) = Except.ok none) :
    afterLocate default store userId sessionId text bh bt =
      Except.ok
        { cleanedText := pyStripWs (replaceAll bh bt text), store := store,
          updated := false } := by
  unfold afterLocate
  rw [hz]

/-- A turn whose block parses at least one field strips the block and
persists the merged record. -/
theorem afterLocate_merge (default : PyState)
    (store : List (List Char × PyState)) (userId : List Char)
    (sessionId : Option (List Char)) (text : List Char) (bh : Char)
    (bt : List Char) (m : PyState)
    (hm : parseAndMerge (get_user_state default store userId sessionId)
      (bh :: bt) = Except.ok (some m)) :
    afterLocate default store userId sessionId text bh bt =
      Except.ok
        { cleanedText := pyStripWs (replaceAll bh bt text),
          store := update_user_state default store userId m sessionId,
          updated := true } := by
  unfold afterLocate
  rw [hm]

/-! ### Stable sort lemmas for the rankings -/

/-- The Boolean key test used to state stability. -/
def hasKey (k : Int) (a : List Char × PyState) : Bool :=
  decide (keyOf a.2 = k)

theorem mem_insertDesc (e x : List Char × PyState)
    (l : List (List Char × PyState)) :
    x ∈ insertDesc e l ↔ x = e ∨ x ∈ l := by
  induction l with
  | nil => simp [insertDesc]
  | cons y ys ih =>
    by_cases hc : keyOf e.2 < keyOf y.2
    · simp only [insertDesc, hc, if_true, List.mem_cons, ih]
      tauto
    · simp only [insertDesc, hc, if_false, List.mem_cons]

theorem insertDesc_perm (e : List Char × PyState)
    (l : List (List Char × PyState)) :
    List.Perm (insertDesc e l) (e :: l) := by
  induction l with
  | nil => exact List.Perm.refl _
  | cons y ys ih =>
    by_cases hc : keyOf e.2 < keyOf y.2
    · simp only [insertDesc, hc, if_true]
      exact (ih.cons y).trans (List.Perm.swap e y ys)
    · simp only [insertDesc, hc, if_false]
      exact List.Perm.refl _

theorem sortDescFav_perm (l : List (List Char × PyState)) :
    List.Perm (sortDescFav l) l := by
  induction l with
  | nil => exact List.Perm.refl _
  | cons x xs ih =>
    exact (insertDesc_perm x (sortDescFav xs)).trans (ih.cons x)

theorem insertDesc_pairwise (e : List Char × PyState)
    (l : List (List Char × PyState))
    (h : List.Pairwise (fun a b => keyOf b.2 ≤ keyOf a.2) l) :
    List.Pairwise (fun a b => keyOf b.2 ≤ keyOf a.2) (insertDesc e l) := by
  induction l with
  | nil => simp [insertDesc]
  | cons y ys ih =>
    rw [List.pairwise_cons] at h
    obtain ⟨hy, hys⟩ := h
    by_cases hc : keyOf e.2 < keyOf y.2
    · simp only [insertDesc, hc, if_true]
      rw [List.pairwise_cons]
      refine ⟨?_, ih hys⟩
      intro z hz
      rcases (mem_insertDesc e z ys).mp hz with hz' | hz'
      · rw [hz']
        exact le_of_lt hc
      · exact hy z hz'
    · simp only [insertDesc, hc, if_false]
      rw [List.pairwise_cons]
      refine ⟨?_, ?_⟩
      · intro z hz
        rcases List.mem_cons.mp hz with hz' | hz'
        · rw [hz']
          exact le_of_not_lt hc
        · exact le_trans (hy z hz') (le_of_not_lt hc)
      · rw [List.pairwise_cons]
        exact ⟨hy, hys⟩

theorem sortDescFav_pairwise (l : List (List Char × PyState)) :
    List.Pairwise (fun a b => keyOf b.2 ≤ keyOf a.2) (sortDescFav l) := by
  induction l with
  | nil => simp [sortDescFav]
  | cons x xs ih => exact insertDesc_pairwise x (sortDescFav xs) ih

theorem insertDesc_filter (e : List Char × PyState)
    (l : List (List Char × PyState)) (k : Int) :
    (insertDesc e l).filter (hasKey k) =
      if keyOf e.2 = k then e :: l.filter (hasKey k)
      else l.filter (hasKey k) := by
  induction l with
  | nil =>
    by_cases he : keyOf e.2 = k <;>
      simp [insertDesc, List.filter, hasKey, he]
  | cons y ys ih =>
    by_cases hc : keyOf e.2 < keyOf y.2
    · simp only [insertDesc, hc, if_true]
      by_cases hy : keyOf y.2 = k
      · have he : ¬ keyOf e.2 = k := by
          intro he
          rw [← hy] at he
          exact absurd hc (by rw [he]; exact lt_irrefl _)
        simp [List.filter_cons, hasKey, hy, he, ih]
      · by_cases he : keyOf e.2 = k <;>
          simp [List.filter_cons, hasKey, hy, he, ih]
    · simp only [insertDesc, hc, if_false]
      by_cases he : keyOf e.2 = k <;>
        simp [List.filter_cons, hasKey, he]

theorem sortDescFav_filter (l : List (List Char × PyState)) (k : Int) :
    (sortDescFav l).filter (hasKey k) = l.filter (hasKey k) := by
  induction l with
  | nil => rfl
  | cons x xs ih =>
    show (insertDesc x (sortDescFav xs)).filter (hasKey k) = _
    rw [insertDesc_filter]
    by_cases hx : keyOf x.2 = k <;>
      simp [List.filter_cons, hasKey, hx, ih]

theorem mem_insertAsc (e x : List Char × PyState)
    (l : List (List Char × PyState)) :
    x ∈ insertAsc e l ↔ x = e ∨ x ∈ l := by
  induction l with
  | nil => simp [insertAsc]
  | cons y ys ih =>
    by_cases hc : keyOf y.2 < keyOf e.2
    · simp only [insertAsc, hc, if_true, List.mem_cons, ih]
      tauto
    · simp only [insertAsc, hc, if_false, List.mem_cons]

theorem insertAsc_perm (e : List Char × PyState)
    (l : List (List Char × PyState)) :
    List.Perm (insertAsc e l) (e :: l) := by
  induction l with
  | nil => exact List.Perm.refl _
  | cons y ys ih =>
    by_cases hc : keyOf y.2 < keyOf e.2
    · simp only [insertAsc, hc, if_true]
      exact (ih.cons y).trans (List.Perm.swap e y ys)
    · simp only [insertAsc, hc, if_false]
      exact List.Perm.refl _

theorem sortAscFav_perm (l : List (List Char × PyState)) :
    List.Perm (sortAscFav l) l := by
  induction l with
  | nil => exact List.Perm.refl _
  | cons x xs ih =>
    exact (insertAsc_perm x (sortAscFav xs)).trans (ih.cons x)

theorem insertAsc_pairwise (e : List Char × PyState)
    (l : List (List Char × PyState))
    (h : List.Pairwise (fun a b => keyOf a.2 ≤ keyOf b.2) l) :
    List.Pairwise (fun a b => keyOf a.2 ≤ keyOf b.2) (insertAsc e l) := by
  induction l with
  | nil => simp [insertAsc]
  | cons y ys ih =>
    rw [List.pairwise_cons] at h
    obtain ⟨hy, hys⟩ := h
    by_cases hc : keyOf y.2 < keyOf e.2
    · simp only [insertAsc, hc, if_true]
      rw [List.pairwise_cons]
      refine ⟨?_, ih hys⟩
      intro z hz
      rcases (mem_insertAsc e z ys).mp hz with hz' | hz'
      · rw [hz']
        exact le_of_lt hc
      · exact hy z hz'
    · simp only [insertAsc, hc, if_false]
      rw [List.pairwise_cons]
      refine ⟨?_, ?_⟩
      · intro z hz
        rcases List.mem_cons.mp hz with hz' | hz'
        · rw [hz']
          exact le_of_not_lt hc
        · exact le_trans (le_of_not_lt hc) (hy z hz')
      · rw [List.pairwise_cons]
        exact ⟨hy, hys⟩

theorem sortAscFav_pairwise (l : List (List Char × PyState)) :
    List.Pairwise (fun a b => keyOf a.2 ≤ keyOf b.2) (sortAscFav l) := by
  induction l with
  | nil => simp [sortAscFav]
  | cons x xs ih => exact insertAsc_pairwise x (sortAscFav xs) ih

theorem insertAsc_filter (e : List Char × PyState)
    (l : List (List Char × PyState)) (k : Int) :
    (insertAsc e l).filter (hasKey k) =
      if keyOf e.2 = k then e :: l.filter (hasKey k)
      else l.filter (hasKey k) := by
  induction l with
  | nil =>
    by_cases he : keyOf e.2 = k <;>
      simp [insertAsc, List.filter, hasKey, he]
  | cons y ys ih =>
    by_cases hc : keyOf y.2 < keyOf e.2
    · simp only [insertAsc, hc, if_true]
      by_cases hy : keyOf y.2 = k
      · have he : ¬ keyOf e.2 = k := by
          intro he
          rw [← he] at hy
          exact absurd hc (by rw [hy]; exact lt_irrefl _)
        simp [List.filter_cons, hasKey, hy, he, ih]
      · by_cases he : keyOf e.2 = k <;>
          simp [List.filter_cons, hasKey, hy, he, ih]
    · simp only [insertAsc, hc, if_false]
      by_cases he : keyOf e.2 = k <;>
        simp [List.filter_cons, hasKey, he]

theorem sortAscFav_filter (l : List (List Char × PyState)) (k : Int) :
    (sortAscFav l).filter (hasKey k) = l.filter (hasKey k) := by
  induction l with
  | nil => rfl
  | cons x xs ih =>
    show (insertAsc x (sortAscFav xs)).filter (hasKey k) = _
    rw [insertAsc_filter]
    by_cases hx : keyOf x.2 = k <;>
      simp [List.filter_cons, hasKey, hx, ih]

/-! ## Claim theorems -/

/-- C1: the claim says the first locate pass finds a candidate exactly when
the text contains a bracket-delimited block holding one of the three field
labels (case-insensitively).  In the source, `block_pattern` writes its
delimiters as `$$` — zero-width end-of-string anchors — so the compiled
pattern matches no text whatsoever: even the failing input
`"[Favour: 5]"`, which contains a bracket-delimited labelled block (as
`locateBlock`, the bracket convention of the spec, confirms), is not
found, and the reconciler is a no-op on every turn. -/
theorem C1_literal_block_pattern_finds_nothing :
    locateBlock (("[Favour: 5]").data) = some (("[Favour: 5]").data) ∧
    litBlockFound (("[Favour: 5]").data) = false ∧
    ∀ s : List Char, litBlockFound s = false :=
  ⟨by decide, by decide, litBlockFound_eq_false⟩

/-- C2: the claim requires that whenever a candidate block is located its
span is removed from the display text before field parsing, and that a
block out of which zero fields parse is still stripped with no store
write.  In the code no candidate block is ever located — `block_pattern`
is anchor-delimited (see C1) — so the stripping of line 184 is
unreachable: the failing input contains a bracket-delimited block (per
the spec's convention, `locateBlock`) out of which zero fields parse, yet
the turn returns its text unchanged, the block leaking to the display
text; indeed every turn returns its text unchanged with no store write.
The embedded lines 182-194 (`afterLocate`) exhibit the intended
behaviour the claim describes: had the block been located, it would have
been stripped with no write. -/
theorem C2_strip_unreachable :
    locateBlock (("x [Favour: notanumber] y").data) =
      some (("[Favour: notanumber]").data) ∧
    favourSearch (("[Favour: notanumber]").data) = none ∧
    attitudeSearch (("[Favour: notanumber]").data) = none ∧
    relationshipSearch (("[Favour: notanumber]").data) = none ∧
    on_llm_resp DEFAULT_STATE [] (("u").data) none
        (("x [Favour: notanumber] y").data) =
      Except.ok
        { cleanedText := ("x [Favour: notanumber] y").data, store := [],
          updated := false } ∧
    afterLocate DEFAULT_STATE [] (("u").data) none
        (("x [Favour: notanumber] y").data) '['
        (("Favour: notanumber]").data) =
      Except.ok
        { cleanedText := ("x  y").data, store := [], updated := false } ∧
    ∀ (default : PyState) (store : List (List Char × PyState))
      (userId : List Char) (sessionId : Option (List Char))
      (text : List Char),
      on_llm_resp default store userId sessionId text =
        Except.ok
          { cleanedText := text, store := store, updated := false } := by
  refine ⟨by decide, by decide, by decide, by decide,
    on_llm_resp_unchanged DEFAULT_STATE [] (("u").data) none
      (("x [Favour: notanumber] y").data), by decide, ?_⟩
  intro default store userId sessionId text
  exact on_llm_resp_unchanged default store userId sessionId text

/-- C3: the merged record starts from the record currently stored for the
identity; a field whose pattern did not match keeps its stored value, and
a field whose pattern matched is overwritten with the parsed value. -/
theorem C3_merge_preserves_unparsed_fields (default : PyState)
    (store : List (List Char × PyState)) (userId : List Char)
    (sessionId : Option (List Char)) (b : List Char) (m : PyState)
    (h : parseAndMerge (get_user_state default store userId sessionId) b =
      Except.ok (some m)) :
    (favourSearch b = none →
      m.favour = (get_user_state default store userId sessionId).favour) ∧
    (attitudeSearch b = none →
      m.attitude = (get_user_state default store userId sessionId).attitude) ∧
    (relationshipSearch b = none →
      m.relationship =
        (get_user_state default store userId sessionId).relationship) ∧
    (∀ g, relationshipSearch b = some g →
      m.relationship = pyStripCut spaceComma g) := by
  have hs := parseAndMerge_some_spec _ b m h
  exact ⟨hs.1, hs.2.2.1, hs.2.2.2.2.1, hs.2.2.2.2.2⟩

/-- C3 witness: the spec's own example — a block carrying only
`[Relationship: friend]` merged over `{favour 5, attitude "neutral",
relationship "stranger"}` keeps favour and attitude and updates only
relationship. -/
theorem C3_witness :
    (favourSearch (("[Relationship: friend]").data) = none →
      (⟨Value.intV 5, ("neutral").data, ("friend").data⟩ : PyState).favour =
        (get_user_state DEFAULT_STATE
          [((("u").data),
            ⟨Value.intV 5, ("neutral").data, ("stranger").data⟩)]
          (("u").data) none).favour) ∧
    (attitudeSearch (("[Relationship: friend]").data) = none →
      (⟨Value.intV 5, ("neutral").data, ("friend").data⟩ : PyState).attitude =
        (get_user_state DEFAULT_STATE
          [((("u").data),
            ⟨Value.intV 5, ("neutral").data, ("stranger").data⟩)]
          (("u").data) none).attitude) ∧
    ((⟨Value.intV 5, ("neutral").data, ("friend").data⟩ : PyState).relationship
      = pyStripCut spaceComma (("friend").data)) := by
  have h := C3_merge_preserves_unparsed_fields DEFAULT_STATE
    [((("u").data), ⟨Value.intV 5, ("neutral").data, ("stranger").data⟩)]
    (("u").data) none (("[Relationship: friend]").data)
    ⟨Value.intV 5, ("neutral").data, ("friend").data⟩ (by decide)
  exact ⟨h.1, h.2.1, h.2.2.2 (("friend").data) (by decide)⟩

/-- C4 counterexample: in `"[Favour: 7, Attitude: ]"` the attitude label is
present with an empty value (only whitespace before the terminator), yet
the merge does not leave attitude at its prior value `"neutral"`: the
pattern captures the whitespace, `strip(' ,')` turns it into the empty
string, and the field is overwritten with it. -/
theorem C4_counterexample :
    attitudeSearch (("[Favour: 7, Attitude: ]").data) = some ([' ']) ∧
    parseAndMerge ⟨Value.intV 5, ("neutral").data, ("stranger").data⟩
      (("[Favour: 7, Attitude: ]").data) =
      Except.ok (some ⟨Value.intV 7, [], ("stranger").data⟩) ∧
    ¬ (([] : List Char) = ("neutral").data) := by
  exact ⟨by decide, by decide, by decide⟩

/-- C4 (amended): a favour label whose value never parses as a signed
integer leaves favour at the prior value; an attitude or relationship
label with a completely empty value (nothing, not even whitespace, before
the terminator) fails its pattern and leaves the field at the prior value;
but when only whitespace stands between the label and the terminator the
whitespace is captured as the value, so the field is overwritten with the
empty string after trimming; and a parse failure of one field never aborts
the merge — every field that did parse is still applied. -/
theorem C4_amended_parse_failures_local (b : List Char) (prior m : PyState)
    (h : parseAndMerge prior b = Except.ok (some m)) :
    (favourSearch b = none → m.favour = prior.favour) ∧
    (attitudeSearch b = none → m.attitude = prior.attitude) ∧
    (relationshipSearch b = none → m.relationship = prior.relationship) ∧
    (∀ g, favourSearch b = some g →
      ∃ n, pyStrToInt (pyStripWs g) = some n ∧ m.favour = Value.intV n) ∧
    (∀ g, attitudeSearch b = some g →
      m.attitude = pyStripCut spaceComma g) ∧
    attitudeSearch (("[Attitude:]").data) = none ∧
    attitudeSearch (("[Attitude: ]").data) = some ([' ']) := by
  have hs := parseAndMerge_some_spec prior b m h
  exact ⟨hs.1, hs.2.2.1, hs.2.2.2.2.1, hs.2.1, hs.2.2.2.1, by decide,
    by decide⟩

/-- C4 witness: in `"[Favour: x, Relationship: pal]"` the favour value is
non-integer — favour stays at the prior 5 — while the relationship still
parses and is applied. -/
theorem C4_witness :
    (favourSearch (("[Favour: x, Relationship: pal]").data) = none →
      (⟨Value.intV 5, ("neutral").data, ("pal").data⟩ : PyState).favour =
        (⟨Value.intV 5, ("neutral").data, ("stranger").data⟩ :
          PyState).favour) ∧
    (attitudeSearch (("[Favour: x, Relationship: pal]").data) = none →
      (⟨Value.intV 5, ("neutral").data, ("pal").data⟩ : PyState).attitude =
        (⟨Value.intV 5, ("neutral").data, ("stranger").data⟩ :
          PyState).attitude) ∧
    favourSearch (("[Favour: x, Relationship: pal]").data) = none := by
  have h := C4_amended_parse_failures_local
    (("[Favour: x, Relationship: pal]").data)
    ⟨Value.intV 5, ("neutral").data, ("stranger").data⟩
    ⟨Value.intV 5, ("neutral").data, ("pal").data⟩ (by decide)
  exact ⟨h.1, h.2.1, by decide⟩

/-- C5 counterexample: a global-mode key can equal a session-scoped key —
the user identifier `"a_b"` in global mode collides with session `"a"`,
user `"b"`, because the separator `_` may occur inside identifiers. -/
theorem C5_counterexample :
    makeKey none (("a_b").data) = makeKey (some (("a").data)) (("b").data) := by
  decide

/-- C5 (amended): the key constructions do collide; a global-mode key
equals a session-scoped key exactly when the global user identifier is the
session identifier, an underscore, then the session's user identifier. -/
theorem C5_amended_collision_iff (u s u' : List Char) :
    makeKey none u = makeKey (some s) u' ↔ u = s ++ '_' :: u' :=
  Iff.rfl

/-- C6: `update_user_state` coerces the incoming favour with `int()`; when
the coercion fails the write still happens and the stored favour falls
back to the currently stored value for the key — which is the configured
default's favour when the key is absent. -/
theorem C6_put_coercion_falls_back (default : PyState)
    (store : List (List Char × PyState)) (userId : List Char)
    (sessionId : Option (List Char)) (r : PyState)
    (h : pyToInt r.favour = none) :
    lookupKey (update_user_state default store userId r sessionId)
        (makeKey sessionId userId) =
      some { r with
        favour := (get_user_state default store userId sessionId).favour } ∧
    (lookupKey store (makeKey sessionId userId) = none →
      (get_user_state default store userId sessionId).favour =
        default.favour) := by
  constructor
  · simp only [update_user_state, h]
    exact lookupKey_setKey_self store _ _
  · intro hnone
    simp [get_user_state, hnone]

/-- C6 witness: writing a record with favour `"notanumber"` into an empty
store stores the default favour instead of rejecting the write. -/
theorem C6_witness :
    pyToInt (Value.strV (("notanumber").data)) = none ∧
    lookupKey (update_user_state DEFAULT_STATE [] (("u").data)
        ⟨Value.strV (("notanumber").data), ("x").data, ("y").data⟩ none)
        (makeKey none (("u").data)) =
      some { (⟨Value.strV (("notanumber").data), ("x").data, ("y").data⟩ :
          PyState) with
        favour := (get_user_state DEFAULT_STATE [] (("u").data) none).favour }
    := by
  have h := C6_put_coercion_falls_back DEFAULT_STATE [] (("u").data) none
    ⟨Value.strV (("notanumber").data), ("x").data, ("y").data⟩ (by decide)
  exact ⟨by decide, h.1⟩

/-- C7: put-then-get round trip — after `update_user_state` the lookup for
the same key returns exactly the record that was stored, with favour
coerced to an integer.  `get_user_state` is read-only in the model, so any
repetition of the get returns the same record. -/
theorem C7_put_then_get_roundtrip (default : PyState)
    (store : List (List Char × PyState)) (userId : List Char)
    (sessionId : Option (List Char)) (r : PyState) (n : Int)
    (h : pyToInt r.favour = some n) :
    get_user_state default
        (update_user_state default store userId r sessionId) userId
        sessionId =
      { r with favour := Value.intV n } := by
  simp only [update_user_state, get_user_state, h]
  rw [lookupKey_setKey_self]
  rfl

/-- C7 witness: storing favour `" 7 "` (a coercible string) and reading it
back yields the integer 7 with the other fields as stored. -/
theorem C7_witness :
    get_user_state DEFAULT_STATE
        (update_user_state DEFAULT_STATE [] (("u").data)
          ⟨Value.strV ((" 7 ").data), ("x").data, ("y").data⟩ none)
        (("u").data) none =
      { (⟨Value.strV ((" 7 ").data), ("x").data, ("y").data⟩ : PyState) with
        favour := Value.intV 7 } :=
  C7_put_then_get_roundtrip DEFAULT_STATE [] (("u").data) none
    ⟨Value.strV ((" 7 ").data), ("x").data, ("y").data⟩ 7 (by decide)

/-- C8: the top ranking is the first `limit` entries of a descending
stable sort of the stored mapping and the bottom ranking of an ascending
one: both sorts are permutations of the store, pairwise ordered on the
favour key, and tie-preserving — filtering either sort to any one key
value returns those records in their original insertion order; under the
at-rest invariant the sort key is the favour value itself. -/
theorem C8_rankings_stable_sorted (store : List (List Char × PyState))
    (limit : Nat) (k : Int) (hpos : 0 < limit)
    (hint : ∀ e ∈ store,
      ∃ n, (e : List Char × PyState).2.favour = Value.intV n) :
    favourRanking store limit = (sortDescFav store).take limit ∧
    List.Pairwise (fun a b => keyOf b.2 ≤ keyOf a.2) (sortDescFav store) ∧
    List.Perm (sortDescFav store) store ∧
    (sortDescFav store).filter (hasKey k) = store.filter (hasKey k) ∧
    negativeFavourRanking store limit = (sortAscFav store).take limit ∧
    List.Pairwise (fun a b => keyOf a.2 ≤ keyOf b.2) (sortAscFav store) ∧
    List.Perm (sortAscFav store) store ∧
    (sortAscFav store).filter (hasKey k) = store.filter (hasKey k) ∧
    (∀ e ∈ store, e.2.favour = Value.intV (keyOf e.2)) := by
  refine ⟨rfl, sortDescFav_pairwise store, sortDescFav_perm store,
    sortDescFav_filter store k, rfl, sortAscFav_pairwise store,
    sortAscFav_perm store, sortAscFav_filter store k, ?_⟩
  intro e he
  obtain ⟨n, hn⟩ := hint e he
  rw [hn]
  simp [keyOf, hn]

/-- C8 witness: a store with tied favour values (5, 7, 5, 7, -1 under keys
a..e) — both rankings are stable and correctly ordered. -/
theorem C8_witness :
    favourRanking
        [((("a").data), ⟨Value.intV 5, [], []⟩),
         ((("b").data), ⟨Value.intV 7, [], []⟩),
         ((("c").data), ⟨Value.intV 5, [], []⟩),
         ((("d").data), ⟨Value.intV 7, [], []⟩),
         ((("e").data), ⟨Value.intV (-1), [], []⟩)] 2 =
      (sortDescFav
        [((("a").data), ⟨Value.intV 5, [], []⟩),
         ((("b").data), ⟨Value.intV 7, [], []⟩),
         ((("c").data), ⟨Value.intV 5, [], []⟩),
         ((("d").data), ⟨Value.intV 7, [], []⟩),
         ((("e").data), ⟨Value.intV (-1), [], []⟩)]).take 2 ∧
    (sortDescFav
        [((("a").data), ⟨Value.intV 5, [], []⟩),
         ((("b").data), ⟨Value.intV 7, [], []⟩),
         ((("c").data), ⟨Value.intV 5, [], []⟩),
         ((("d").data), ⟨Value.intV 7, [], []⟩),
         ((("e").data), ⟨Value.intV (-1), [], []⟩)]).filter (hasKey 5) =
      ([((("a").data), ⟨Value.intV 5, [], []⟩),
        ((("b").data), ⟨Value.intV 7, [], []⟩),
        ((("c").data), ⟨Value.intV 5, [], []⟩),
        ((("d").data), ⟨Value.intV 7, [], []⟩),
        ((("e").data), ⟨Value.intV (-1), [], []⟩)]).filter (hasKey 5) ∧
    sortDescFav
        [((("a").data), ⟨Value.intV 5, [], []⟩),
         ((("b").data), ⟨Value.intV 7, [], []⟩),
         ((("c").data), ⟨Value.intV 5, [], []⟩),
         ((("d").data), ⟨Value.intV 7, [], []⟩),
         ((("e").data), ⟨Value.intV (-1), [], []⟩)] =
      [((("b").data), ⟨Value.intV 7, [], []⟩),
       ((("d").data), ⟨Value.intV 7, [], []⟩),
       ((("a").data), ⟨Value.intV 5, [], []⟩),
       ((("c").data), ⟨Value.intV 5, [], []⟩),
       ((("e").data), ⟨Value.intV (-1), [], []⟩)] := by
  have h := C8_rankings_stable_sorted
    [((("a").data), ⟨Value.intV 5, [], []⟩),
     ((("b").data), ⟨Value.intV 7, [], []⟩),
     ((("c").data), ⟨Value.intV 5, [], []⟩),
     ((("d").data), ⟨Value.intV 7, [], []⟩),
     ((("e").data), ⟨Value.intV (-1), [], []⟩)] 2 5 (by decide)
    (by
      intro e he
      simp only [List.mem_cons, List.not_mem_nil, or_false] at he
      rcases he with h | h | h | h | h <;> subst h <;> exact ⟨_, rfl⟩)
  exact ⟨h.1, h.2.2.2.1, by decide⟩

/-- C9: the claim says that when the located block's exact text occurs
more than once, the cleaning step removes every occurrence while only the
first block's fields are parsed.  With the literal `block_pattern`
nothing is ever located, so the cleaning step of line 184 never runs: on
the failing input, whose bracket-delimited block text occurs twice, the
turn returns the text unchanged — both copies leak to the display text —
and writes nothing.  The embedded lines 182-207 (`afterLocate`) exhibit
what the `str.replace` of line 184 would do had the block been located:
every occurrence removed, favour updated from the single block text. -/
theorem C9_cleaning_unreachable :
    locateBlock (("A [Favour: 3] B [Favour: 3] C").data) =
      some (("[Favour: 3]").data) ∧
    litBlockFound (("A [Favour: 3] B [Favour: 3] C").data) = false ∧
    on_llm_resp DEFAULT_STATE [] (("u").data) none
        (("A [Favour: 3] B [Favour: 3] C").data) =
      Except.ok
        { cleanedText := ("A [Favour: 3] B [Favour: 3] C").data,
          store := [], updated := false } ∧
    afterLocate DEFAULT_STATE [] (("u").data) none
        (("A [Favour: 3] B [Favour: 3] C").data) '[' (("Favour: 3]").data) =
      Except.ok
        { cleanedText := ("A  B  C").data,
          store := update_user_state DEFAULT_STATE [] (("u").data)
            ⟨Value.intV 3, ("中立").data, ("陌生人").data⟩ none,
          updated := true } :=
  ⟨by decide, by decide,
    on_llm_resp_unchanged DEFAULT_STATE [] (("u").data) none
      (("A [Favour: 3] B [Favour: 3] C").data), by decide⟩

/-- C10: the favour capture group always converts — `int()` on a capture
never raises — so the parse-and-merge step never errors, and for a record
the reconciler hands to `update_user_state` (prior favour an integer at
rest), the coercion succeeds and the fallback branch is not taken: the
store receives the record with its favour coerced, never the fallback. -/
theorem C10_favour_int_never_raises (b : List Char) (prior : PyState)
    (kN : Int) (hprior : pyToInt prior.favour = some kN) :
    (∀ g, favourSearch b = some g →
      ∃ n, pyStrToInt (pyStripWs g) = some n) ∧
    (∃ r, parseAndMerge prior b = Except.ok r) ∧
    (∀ m, parseAndMerge prior b = Except.ok (some m) →
      ∃ j, pyToInt m.favour = some j ∧
        ∀ (default : PyState) (store : List (List Char × PyState))
          (userId : List Char) (sessionId : Option (List Char)),
          update_user_state default store userId m sessionId =
            setKey store (makeKey sessionId userId)
              { m with favour := Value.intV j }) := by
  refine ⟨fun g hg => favourSearch_toInt b g hg, parseAndMerge_isOk prior b,
    ?_⟩
  intro m hm
  have hs := parseAndMerge_some_spec prior b m hm
  cases hfm : favourSearch b with
  | none =>
    have hf := hs.1 hfm
    refine ⟨kN, by rw [hf]; exact hprior, ?_⟩
    intro default store userId sessionId
    simp only [update_user_state, hf, hprior]
  | some g =>
    obtain ⟨n, hn, hfav⟩ := hs.2.1 g hfm
    refine ⟨n, by rw [hfav]; rfl, ?_⟩
    intro default store userId sessionId
    simp only [update_user_state, hfav]
    rfl

/-- C10 witness: with the default prior record and the block
`"[Favour: 5]"`, parse-and-merge succeeds (no raise) and produces exactly
the coerced record. -/
theorem C10_witness :
    (∃ r, parseAndMerge DEFAULT_STATE (("[Favour: 5]").data) =
      Except.ok r) ∧
    parseAndMerge DEFAULT_STATE (("[Favour: 5]").data) =
      Except.ok (some ⟨Value.intV 5, ("中立").data, ("陌生人").data⟩) := by
  have h := C10_favour_int_never_raises (("[Favour: 5]").data) DEFAULT_STATE
    20 (by decide)
  exact ⟨h.2.1, by decide⟩

end FavourPro
